import Mathlib

/-! The sogouad `service` package: cookie jar, login-token scraping, request
bodies and the login check.

A shallow embedding of `src/github.com/sogouad/service/service.go`.

Go strings and byte slices are lists of bytes.  Calls into the Go standard
library (`regexp`, `net/url`, `encoding/json`, `net/http`) are embedded by
functions that follow the documented behaviour of those packages; the outcome
of network traffic is an explicit argument of the operations that perform it.
-/

namespace Sogouad

/-! ## Bytes and strings -/

/-- One byte. -/
abbrev Byte := Fin 256

/-- A Go `string` or `[]byte`: a sequence of bytes. -/
abbrev GoString := List Byte

/-- The byte of an ASCII character. -/
def byteOf (c : Char) : Byte := ⟨c.toNat % 256, Nat.mod_lt _ (by decide)⟩

/-- The bytes of an ASCII string literal. -/
def ascii (s : String) : GoString := s.toList.map byteOf

/-- The double quote `"`. -/
def quote : Byte := 34

/-- The line feed `\n`. -/
def newline : Byte := 10

/-- The backslash. -/
def backslash : Byte := 92

/-! ## Cookie store (`MyJar`) -/

/-- The fields of `http.Cookie` that identify a cookie. -/
structure Cookie where
  Name : GoString
  Value : GoString
  Path : GoString
  Domain : GoString
  deriving DecidableEq

/-- The part of `url.URL` the package reads. -/
structure URL where
  Scheme : GoString
  Host : GoString
  Path : GoString
  deriving DecidableEq

/-- A Go slice `[]*http.Cookie`: `none` is the nil slice. -/
abbrev CookieSlice := Option (List Cookie)

/-- Go `MyJar`: the map `cookies map[string][]*http.Cookie`, as made by `NewMyJar`.
A key that is absent reads as the nil slice, as in Go. -/
structure MyJar where
  cookies : GoString → CookieSlice

/-- Go `NewMyJar`: the empty map. -/
def NewMyJar : MyJar := { cookies := fun _ => none }

/-- Go `(*MyJar).SetCookies`: `j.cookies[u.Host] = cookies`. -/
def MyJar.SetCookies (j : MyJar) (u : URL) (cookies : CookieSlice) : MyJar :=
  { cookies := fun h => if h = u.Host then cookies else j.cookies h }

/-- Go `(*MyJar).Cookies`: `return j.cookies[u.Host]`. -/
def MyJar.Cookies (j : MyJar) (u : URL) : CookieSlice := j.cookies u.Host

/-! ## Login-page token patterns (`ltReg`, `executionReg`)

Both patterns have the shape `A(.+?)B` with `A` and `B` literal ASCII text.
`regexp` works on UTF-8 runes; an ASCII byte is always a rune of its own (the
bytes of a multi-byte rune are all `≥ 0x80`, and an invalid byte is a one-byte
rune that `.` accepts), and `A`, `B` and `\n` are ASCII, so matching byte by
byte gives the same match and the same captured bytes. -/

/-- The constant `ltRegStr`. -/
def ltRegStr : GoString := ascii "name=\"lt\" value=\"(.+?)\""

/-- The constant `executionRegStr`. -/
def executionRegStr : GoString := ascii "name=\"execution\" value=\"(.+?)\""

/-- A compiled pattern; its meaning is that of its source text. -/
structure Regexp where
  expr : GoString
  deriving DecidableEq

/-- Go `regexp.MustCompile`. -/
def MustCompile (str : GoString) : Regexp := { expr := str }

/-- The variable `ltReg`. -/
def ltReg : Regexp := MustCompile ltRegStr

/-- The variable `executionReg`. -/
def executionReg : Regexp := MustCompile executionRegStr

/-- The text of a lazy capture group of one or more characters. -/
def lazyGroup : GoString := ascii "(.+?)"

/-- The text before and after the first `(.+?)` of a pattern. -/
def splitAtGroup : GoString → Option (GoString × GoString)
  | [] => none
  | c :: r =>
    if lazyGroup.isPrefixOf (c :: r) then some ([], (c :: r).drop lazyGroup.length)
    else (splitAtGroup r).map (fun ab => (c :: ab.1, ab.2))

/-- Text that a pattern matches literally: not empty, ASCII, and without any
of the characters that `regexp` gives a meaning to. -/
def isLiteral (t : GoString) : Bool :=
  t != [] && t.all (fun c => c.val < 0x80 && !(ascii "\\.+*?()|[]\x7b\x7d^$").contains c)

/-- The two literals `A` and `B` of a pattern `A(.+?)B`; patterns of any other
shape are outside this model. -/
def Regexp.parts (re : Regexp) : Option (GoString × GoString) :=
  match splitAtGroup re.expr with
  | some (a, b) => if isLiteral a && isLiteral b then some (a, b) else none
  | none => none

/-- After the first captured character: the lazy `.+?` takes as few further
characters as possible, so it stops at the first place where the text `after`
follows; it cannot pass `\n`. -/
def lazyTail (after : List Byte) : List Byte → Option (List Byte)
  | [] => none
  | d :: r =>
    if after.isPrefixOf (d :: r) then some []
    else if d = newline then none
    else (lazyTail after r).map (fun cap => d :: cap)

/-- The part `(.+?)B` anchored at the start of the input: at least one
character other than `\n`, then the shortest continuation up to `B`. -/
def captureAt (after : List Byte) : List Byte → Option (List Byte)
  | [] => none
  | c :: r => if c = newline then none else (lazyTail after r).map (fun cap => c :: cap)

/-- The whole pattern `A(.+?)B` anchored at the start of the input; the result
is the captured group. -/
def matchAt (before after : List Byte) (s : List Byte) : Option (List Byte) :=
  if before.isPrefixOf s then captureAt after (s.drop before.length) else none

/-- The leftmost match of `A(.+?)B` in the input. -/
def findGroup (before after : List Byte) : List Byte → Option (List Byte)
  | [] => matchAt before after []
  | c :: r =>
    match matchAt before after (c :: r) with
    | some cap => some cap
    | none => findGroup before after r

/-- Go `(*Regexp).FindSubmatch`: the leftmost match.  The result is `matches[1]`,
the captured group; `none` is the nil result of a body without a match. -/
def Regexp.FindSubmatch (re : Regexp) (body : List Byte) : Option (List Byte) :=
  match re.parts with
  | some (a, b) => findGroup a b body
  | none => none

/-- The text `name="lt" value="` that precedes the value of the `lt` field. -/
def ltField : GoString := ascii "name=\"lt\" value=\""

/-- The text `name="execution" value="` that precedes the value of the
`execution` field. -/
def executionField : GoString := ascii "name=\"execution\" value=\""

/-! ## Errors -/

/-- An error value made outside this package (transport, timeout, parsing). -/
structure LibError where
  msg : String
  deriving DecidableEq

/-- The error values the package meets: its two sentinels, the sentinel
`http.ErrUseLastResponse` that a redirect policy may return, errors of the
libraries it calls, and the `*url.Error` in which `http.Client` wraps the
error of a failed request. -/
inductive GoError where
  | ErrNotLogined
  | ErrBodyNotMatched
  | ErrUseLastResponse
  | lib (e : LibError)
  | urlError (Op : String) (URL : String) (Err : GoError)
  deriving DecidableEq

/-! ## `FetchLoginParams` -/

/-- What the library calls of `FetchLoginParams` deliver, in the order of the
code: an error of `http.NewRequest`, of `s.client.Do` or of `ioutil.ReadAll`,
or the bytes read.  `s.client` has no redirect policy of its own, so these
errors are made by the libraries alone. -/
inductive Fetched where
  | requestError (e : LibError)
  | doError (e : LibError)
  | readError (e : LibError)
  | body (b : GoString)

/-- The token extraction of `FetchLoginParams` (lines 101-115): the named
results `lt`, `execution`, `err` at the return. -/
def extractLoginParams (body : GoString) : GoString × GoString × Option GoError :=
  match ltReg.FindSubmatch body with
  | none => ([], [], some GoError.ErrBodyNotMatched)
  | some lt =>
    match executionReg.FindSubmatch body with
    | none => (lt, [], some GoError.ErrBodyNotMatched)
    | some execution => (lt, execution, none)

/-- Go `FetchLoginParams`: every early `return` leaves the named results as they
are at that point. -/
def FetchLoginParams : Fetched → GoString × GoString × Option GoError
  | Fetched.requestError e => ([], [], some (GoError.lib e))
  | Fetched.doError e => ([], [], some (GoError.lib e))
  | Fetched.readError e => ([], [], some (GoError.lib e))
  | Fetched.body b => extractLoginParams b

/-! ## `CheckLogined` -/

/-- The fields of `http.Request` that matter here. -/
structure Request where
  Method : String
  URL : String
  deriving DecidableEq

/-- The fields of `http.Response` that the client reads to decide on a
redirect: the status code and `Header.Get("Location")`, which is the empty
string when the header is absent. -/
structure Response where
  StatusCode : Nat
  Location : String
  deriving DecidableEq

/-- What comes back for the request a client sends: a transport failure or a
response. -/
inductive RoundTrip where
  | failed (e : LibError)
  | answered (resp : Response)

/-- The statuses that `net/http` treats as a redirect of a GET request without
a body (`redirectBehavior`): 301, 302, 303, 307 and 308. -/
def shouldRedirect (status : Nat) : Bool :=
  status = 301 || status = 302 || status = 303 || status = 307 || status = 308

/-- Go `(*http.Client).Do` for a GET request, up to its first redirect, as
`net/http` does it since Go 1.8.  A transport failure comes back inside a
`*url.Error`.  A response whose status is no redirect status, or that has no
`Location`, is returned as it is with a nil error.  A `Location` that does not
parse (`parseLocation` is `req.URL.Parse`) gives a `*url.Error` with the URL of
the request.  Otherwise the client asks `CheckRedirect` with the upcoming
request and the requests made so far: `ErrUseLastResponse` returns the response
with a nil error, any other error is returned "wrapped in a url.Error" whose
URL is the `Location`, and without an error the exchange goes on (`follow`). -/
def clientDo (CheckRedirect : Request → List Request → Option GoError)
    (parseLocation : String → Except LibError String) (req : Request) (rt : RoundTrip)
    (follow : Request → List Request → Except GoError Response) :
    Except GoError Response :=
  match rt with
  | RoundTrip.failed e => Except.error (GoError.urlError "Get" req.URL (GoError.lib e))
  | RoundTrip.answered resp =>
    if shouldRedirect resp.StatusCode = false then Except.ok resp
    else if resp.Location = "" then Except.ok resp
    else
      match parseLocation resp.Location with
      | Except.error e => Except.error (GoError.urlError "Get" req.URL (GoError.lib e))
      | Except.ok target =>
        match CheckRedirect { Method := "GET", URL := target } [req] with
        | some GoError.ErrUseLastResponse => Except.ok resp
        | some err => Except.error (GoError.urlError "Get" resp.Location err)
        | none => follow { Method := "GET", URL := target } [req]

/-- The `CheckRedirect` function literal of `CheckLogined` (lines 222-224). -/
def checkLoginedRedirect (_req : Request) (_via : List Request) : Option GoError :=
  some GoError.ErrNotLogined

/-- Go `CheckLogined`: `newRequest` is the error of `http.NewRequest` (nil for
`none`); `parseLocation`, `rt` and `follow` are what the URL parser and the
network do with the request. -/
def CheckLogined (parseLocation : String → Except LibError String)
    (newRequest : Option LibError) (rt : RoundTrip)
    (follow : Request → List Request → Except GoError Response) : Option GoError :=
  match newRequest with
  | some e => some (GoError.lib e)
  | none =>
    match clientDo checkLoginedRedirect parseLocation
        { Method := "GET", URL := "http://xuri.p4p.sogou.com/cpcadindex/init.action" }
        rt follow with
    | Except.error err => some err
    | Except.ok _ => none

/-- Go `(*url.Error).Unwrap`: the error inside a `*url.Error` (its `Err`
field); the other errors wrap nothing. -/
def GoError.Unwrap : GoError → Option GoError
  | GoError.urlError _ _ err => some err
  | _ => none

/-- Go `errors.Is`: the error is the target, or the error it wraps is, and so
on down the chain. -/
def errorsIs : GoError → GoError → Bool
  | GoError.urlError op url err, target =>
    decide (GoError.urlError op url err = target) || errorsIs err target
  | e, target => decide (e = target)

/-! ## `Login`: the form body -/

/-- Byte-wise order of Go strings (`<=` on `string`, as `sort.Strings` uses it). -/
def strLE : GoString → GoString → Bool
  | [], _ => true
  | _ :: _, [] => false
  | a :: r, b :: t => if a.val < b.val then true else if b.val < a.val then false else strLE r t

/-- Insertion into a sorted list of keys. -/
def insertKey (k : GoString) : List GoString → List GoString
  | [] => [k]
  | x :: xs => if strLE k x then k :: x :: xs else x :: insertKey k xs

/-- Go `sort.Strings`. -/
def sortStrings : List GoString → List GoString
  | [] => []
  | k :: ks => insertKey k (sortStrings ks)

/-- The string `"0123456789ABCDEF"` indexed at `n`. -/
def upperhex (n : Nat) : Byte := (ascii "0123456789ABCDEF").getD n 0

/-- Go `shouldEscape(c, encodeQueryComponent)` of `net/url`: letters, digits and
`-`, `_`, `.`, `~` are kept; every other byte is escaped. -/
def shouldEscape (c : Byte) : Bool :=
  if (97 ≤ c.val ∧ c.val ≤ 122) ∨ (65 ≤ c.val ∧ c.val ≤ 90) ∨ (48 ≤ c.val ∧ c.val ≤ 57) then false
  else if c = byteOf '-' ∨ c = byteOf '_' ∨ c = byteOf '.' ∨ c = byteOf '~' then false
  else true

/-- One byte of `url.QueryEscape`: a space becomes `+`, a byte to escape
becomes `%XX` with `XX = hex[c>>4] hex[c&15]`, any other byte stays. -/
def escapeByte (c : Byte) : List Byte :=
  if c = byteOf ' ' then [byteOf '+']
  else if shouldEscape c then [byteOf '%', upperhex (c.val / 16), upperhex (c.val % 16)]
  else [c]

/-- Go `url.QueryEscape`. -/
def QueryEscape (s : GoString) : GoString := s.flatMap escapeByte

/-- Go `url.Values`, a `map[string][]string`, given by its entries (keys distinct). -/
abbrev Values := List (GoString × List GoString)

/-- The map lookup `v[k]`. -/
def Values.get (v : Values) (k : GoString) : List GoString :=
  match v.find? (fun e => e.1 = k) with
  | some e => e.2
  | none => []

/-- Go `url.Values.Encode`: the keys in sorted order, each value written as
`QueryEscape(k) + "=" + QueryEscape(value)`, with `&` between the pairs. -/
def Values.Encode (v : Values) : GoString :=
  (sortStrings (v.map Prod.fst)).foldl
    (fun buf k =>
      (v.get k).foldl
        (fun buf val =>
          (if buf.length > 0 then buf ++ [byteOf '&'] else buf) ++
            (QueryEscape k ++ [byteOf '=']) ++ QueryEscape val)
        buf)
    []

/-- The request body of `Login` (lines 121-128). -/
def LoginBody (lt execution username password captcha : GoString) : GoString :=
  Values.Encode
    [ (ascii "lt", [lt]),
      (ascii "execution", [execution]),
      (ascii "_eventId", [ascii "submit"]),
      (ascii "username", [username]),
      (ascii "password", [password]),
      (ascii "validateCode", [captcha]) ]

/-! ## `DownloadReport`: the request body -/

/-- Go `QueryReportParam`: six string fields. -/
structure QueryReportParam where
  TimeSelect : GoString
  StartDate : GoString
  EndDate : GoString
  StatType : GoString
  ReportType : GoString
  DeviceType : GoString
  deriving DecidableEq

/-- The fields of `QueryReportParam` in the order of the struct declaration,
each under the name of its `json` tag. -/
def QueryReportParam.fields (p : QueryReportParam) : List (GoString × GoString) :=
  [ (ascii "timeSelect", p.TimeSelect),
    (ascii "startDate", p.StartDate),
    (ascii "endDate", p.EndDate),
    (ascii "statType", p.StatType),
    (ascii "reportType", p.ReportType),
    (ascii "deviceType", p.DeviceType) ]

/-- The string `"0123456789abcdef"` of `encoding/json` indexed at `n`. -/
def lowerhex (n : Nat) : Byte := (ascii "0123456789abcdef").getD n 0

/-- The width that `utf8.DecodeRuneInString` reports for input starting with a
byte `≥ 0x80`: 2, 3 or 4 for a valid multi-byte sequence, and `0` here for the
case `(RuneError, 1)` of an invalid or truncated one.  A missing byte reads as
`0`, which is no continuation byte. -/
def multiByteWidth (s : List Byte) : Nat :=
  let b0 := (s.getD 0 0).val
  let b1 := (s.getD 1 0).val
  let b2 := (s.getD 2 0).val
  let b3 := (s.getD 3 0).val
  if 0xC2 ≤ b0 ∧ b0 ≤ 0xDF then
    if 0x80 ≤ b1 ∧ b1 ≤ 0xBF then 2 else 0
  else if 0xE0 ≤ b0 ∧ b0 ≤ 0xEF then
    let lo := if b0 = 0xE0 then 0xA0 else 0x80
    let hi := if b0 = 0xED then 0x9F else 0xBF
    if lo ≤ b1 ∧ b1 ≤ hi ∧ 0x80 ≤ b2 ∧ b2 ≤ 0xBF then 3 else 0
  else if 0xF0 ≤ b0 ∧ b0 ≤ 0xF4 then
    let lo := if b0 = 0xF0 then 0x90 else 0x80
    let hi := if b0 = 0xF4 then 0x8F else 0xBF
    if lo ≤ b1 ∧ b1 ≤ hi ∧ 0x80 ≤ b2 ∧ b2 ≤ 0xBF ∧ 0x80 ≤ b3 ∧ b3 ≤ 0xBF then 4 else 0
  else 0

/-- A release of `encoding/json`, by the three points on which the releases
write a string differently: whether a tab is written `\t` (otherwise
`\u0009`), whether backspace and form feed are written `\b` and `\f` (Go 1.22
on; otherwise `\u0008` and `\u000c`), and whether an invalid UTF-8 byte is
replaced by the three bytes of U+FFFD (otherwise by the six characters
`\ufffd`).  The repository fixes no release. -/
structure Release where
  tabShort : Bool
  backspaceShort : Bool
  replacementRaw : Bool
  deriving DecidableEq

/-- The opening brace. -/
def lbrace : Byte := 123

/-- The closing brace. -/
def rbrace : Byte := 125

/-- The ASCII branch of the string encoder of `encoding/json`: a byte from
`0x20` on other than `\`, `"`, `<`, `>`, `&` is copied; `\` and `"` get a
backslash; `\n`, `\r` and, by release, `\b`, `\f`, `\t` become two-character
escapes; the rest becomes `\u00XX`. -/
def escapeASCII (rel : Release) (b : Byte) : List Byte :=
  if 0x20 ≤ b.val ∧ b ≠ backslash ∧ b ≠ quote ∧ b ≠ byteOf '<' ∧ b ≠ byteOf '>' ∧
      b ≠ byteOf '&' then [b]
  else if b = backslash ∨ b = quote then [backslash, b]
  else if b.val = 8 ∧ rel.backspaceShort = true then [backslash, byteOf 'b']
  else if b.val = 12 ∧ rel.backspaceShort = true then [backslash, byteOf 'f']
  else if b = byteOf '\n' then [backslash, byteOf 'n']
  else if b = byteOf '\r' then [backslash, byteOf 'r']
  else if b = byteOf '\t' ∧ rel.tabShort = true then [backslash, byteOf 't']
  else ascii "\\u00" ++ [lowerhex (b.val / 16), lowerhex (b.val % 16)]

/-- What the encoder writes for a byte that is not valid UTF-8. -/
def replacement (rel : Release) : List Byte :=
  if rel.replacementRaw = true then [0xEF, 0xBF, 0xBD] else ascii "\\ufffd"

/-- The loop of the string encoder over the bytes of `s`, one rune per step:
an ASCII byte goes through `escapeASCII`, an invalid byte becomes the
replacement, U+2028 and U+2029 become `\u2028` and `\u2029`, every other
multi-byte rune is copied.  Each step consumes at least one byte, so
`fuel = len(s)` steps are enough. -/
def jsonLoop (rel : Release) : Nat → GoString → List Byte
  | 0, _ => []
  | _ + 1, [] => []
  | fuel + 1, b :: rest =>
    if b.val < 0x80 then escapeASCII rel b ++ jsonLoop rel fuel rest
    else if multiByteWidth (b :: rest) = 0 then replacement rel ++ jsonLoop rel fuel rest
    else if (b :: rest).take 3 = [0xE2, 0x80, 0xA8] then
      ascii "\\u2028" ++ jsonLoop rel fuel (rest.drop 2)
    else if (b :: rest).take 3 = [0xE2, 0x80, 0xA9] then
      ascii "\\u2029" ++ jsonLoop rel fuel (rest.drop 2)
    else (b :: rest).take (multiByteWidth (b :: rest)) ++
      jsonLoop rel fuel ((b :: rest).drop (multiByteWidth (b :: rest)))

/-- The string encoder of `encoding/json`: the JSON string literal of a Go
string. -/
def jsonString (rel : Release) (s : GoString) : List Byte :=
  quote :: (jsonLoop rel s.length s ++ [quote])

/-- The loop of the struct encoder over the fields: a `,` before every field
but the first, then the quoted name, `:` and the encoded value. -/
def encodeFields (rel : Release) : Bool → List (GoString × GoString) → List Byte
  | _, [] => []
  | first, (name, value) :: fs =>
    (if first then [] else [byteOf ',']) ++ jsonString rel name ++ [byteOf ':'] ++
      jsonString rel value ++ encodeFields rel false fs

/-- Go `json.Marshal(param)` for `param *QueryReportParam`: `null` for the nil
pointer, otherwise the object of the struct fields. -/
def Marshal (rel : Release) : Option QueryReportParam → List Byte
  | none => ascii "null"
  | some p => lbrace :: (encodeFields rel true p.fields ++ [rbrace])

/-- The request body of `DownloadReport` (lines 179-185): `"jsonStr="` followed
by the bytes of `json.Marshal(param)`. -/
def DownloadReportBody (rel : Release) (param : Option QueryReportParam) : List Byte :=
  ascii "jsonStr=" ++ Marshal rel param

/-- The parameters of the example in the source comment (line 167). -/
def sampleParam : QueryReportParam :=
  { TimeSelect := ascii "5", StartDate := ascii "2016-02-15", EndDate := ascii "2016-02-21",
    StatType := ascii "0", ReportType := ascii "3", DeviceType := ascii "0" }

/-! ## Decoding `application/x-www-form-urlencoded` (the reading of a form body) -/

/-- The value of a hexadecimal digit (`unhex` of `net/url`). -/
def unhex (c : Byte) : Option Nat :=
  if 48 ≤ c.val ∧ c.val ≤ 57 then some (c.val - 48)
  else if 97 ≤ c.val ∧ c.val ≤ 102 then some (c.val - 97 + 10)
  else if 65 ≤ c.val ∧ c.val ≤ 70 then some (c.val - 65 + 10)
  else none

/-- Percent-decoding of a form component (`url.QueryUnescape`): `+` is a
space, `%XX` is the byte with hexadecimal value `XX`; a `%` without two
hexadecimal digits is an error. -/
def QueryUnescape : GoString → Option GoString
  | [] => some []
  | c :: r =>
    if c = byteOf '%' then
      match r with
      | h1 :: h2 :: r2 =>
        match unhex h1, unhex h2 with
        | some a, some b =>
          (QueryUnescape r2).map (fun t => (⟨(a * 16 + b) % 256, Nat.mod_lt _ (by decide)⟩ : Byte) :: t)
        | _, _ => none
      | _ => none
    else if c = byteOf '+' then (QueryUnescape r).map (fun t => byteOf ' ' :: t)
    else (QueryUnescape r).map (fun t => c :: t)

/-- The pieces of a byte string between occurrences of `sep`. -/
def splitOn (sep : Byte) : GoString → List GoString
  | [] => [[]]
  | c :: r =>
    if c = sep then [] :: splitOn sep r
    else
      match splitOn sep r with
      | [] => [[c]]
      | p :: ps => (c :: p) :: ps

/-- A piece `key=value` cut at its first `=`; without `=` the value is empty. -/
def cutPair : GoString → GoString × GoString
  | [] => ([], [])
  | c :: r => if c = byteOf '=' then ([], r) else ((cutPair r).1.cons c, (cutPair r).2)

/-- The pairs of a list of pieces: empty pieces are skipped, key and value are
percent-decoded. -/
def decodePieces : List GoString → Option (List (GoString × GoString))
  | [] => some []
  | p :: ps =>
    if p = [] then decodePieces ps
    else
      match QueryUnescape (cutPair p).1, QueryUnescape (cutPair p).2, decodePieces ps with
      | some k, some v, some rest => some ((k, v) :: rest)
      | _, _, _ => none

/-- The fields of a form body in their order of appearance: the body is split
at `&`, each piece at its first `=`, and both parts are decoded (as
`url.ParseQuery` reads a body). -/
def parseForm (body : GoString) : Option (List (GoString × GoString)) :=
  decodePieces (splitOn (byteOf '&') body)

/-! ## Plain bytes -/

/-- A byte that the JSON encoder copies unchanged: printable ASCII other than
`"`, `\`, `<`, `>`, `&`. -/
def isPlainByte (b : Byte) : Bool :=
  0x20 ≤ b.val && b.val < 0x80 && b != backslash && b != quote && b != byteOf '<' &&
    b != byteOf '>' && b != byteOf '&'

/-! ## Reading JSON (RFC 8259) and UTF-8 (Unicode Standard, Table 3-7) -/

/-- The byte with the given value. -/
def byteN (n : Nat) : Byte := ⟨n % 256, Nat.mod_lt _ (by decide)⟩

/-- A Unicode scalar value: a code point up to U+10FFFF that is no surrogate. -/
def isScalar (cp : Nat) : Bool := cp < 0xD800 || (0xDFFF < cp && cp < 0x110000)

/-- The UTF-8 encoding of a code point (RFC 3629). -/
def utf8Bytes (cp : Nat) : List Byte :=
  if cp < 0x80 then [byteN cp]
  else if cp < 0x800 then [byteN (0xC0 + cp / 64), byteN (0x80 + cp % 64)]
  else if cp < 0x10000 then
    [byteN (0xE0 + cp / 4096), byteN (0x80 + cp / 64 % 64), byteN (0x80 + cp % 64)]
  else
    [byteN (0xF0 + cp / 262144), byteN (0x80 + cp / 4096 % 64), byteN (0x80 + cp / 64 % 64),
      byteN (0x80 + cp % 64)]

/-- The UTF-8 encoding of a text. -/
def utf8Text (t : List Char) : GoString := t.flatMap (fun c => utf8Bytes c.toNat)

/-- The well-formed UTF-8 byte sequences, Table 3-7 of the Unicode Standard:
each row gives the range of every byte of a sequence. -/
def wellFormedRows : List (List (Nat × Nat)) :=
  [ [(0x00, 0x7F)],
    [(0xC2, 0xDF), (0x80, 0xBF)],
    [(0xE0, 0xE0), (0xA0, 0xBF), (0x80, 0xBF)],
    [(0xE1, 0xEC), (0x80, 0xBF), (0x80, 0xBF)],
    [(0xED, 0xED), (0x80, 0x9F), (0x80, 0xBF)],
    [(0xEE, 0xEF), (0x80, 0xBF), (0x80, 0xBF)],
    [(0xF0, 0xF0), (0x90, 0xBF), (0x80, 0xBF), (0x80, 0xBF)],
    [(0xF1, 0xF3), (0x80, 0xBF), (0x80, 0xBF), (0x80, 0xBF)],
    [(0xF4, 0xF4), (0x80, 0x8F), (0x80, 0xBF), (0x80, 0xBF)] ]

/-- The input starts with bytes in the ranges of the row. -/
def matchesRow : List (Nat × Nat) → List Byte → Bool
  | [], _ => true
  | _ :: _, [] => false
  | (lo, hi) :: row, b :: t => decide (lo ≤ b.val) && decide (b.val ≤ hi) && matchesRow row t

/-- The well-formed sequence that starts the input, if there is one. -/
def wellFormedPrefix (s : List Byte) : Option (List Byte) :=
  (wellFormedRows.find? (fun row => matchesRow row s)).map (fun row => s.take row.length)

/-- The text that a byte string stands for: every well-formed sequence is
kept, every other byte is replaced by U+FFFD (bytes `EF BF BD`). -/
def toValidUTF8Loop : Nat → GoString → GoString
  | 0, _ => []
  | _ + 1, [] => []
  | fuel + 1, b :: rest =>
    match wellFormedPrefix (b :: rest) with
    | some enc => enc ++ toValidUTF8Loop fuel ((b :: rest).drop enc.length)
    | none => [0xEF, 0xBF, 0xBD] ++ toValidUTF8Loop fuel rest

/-- The text of a byte string, read to its end. -/
def toValidUTF8 (s : GoString) : GoString := toValidUTF8Loop s.length s

/-- The code point of four hexadecimal digits. -/
def hex4 (h1 h2 h3 h4 : Byte) : Option Nat :=
  match unhex h1, unhex h2, unhex h3, unhex h4 with
  | some a, some b, some c, some d => some (((a * 16 + b) * 16 + c) * 16 + d)
  | _, _, _, _ => none

/-- The character of a two-character escape of JSON. -/
def simpleEscape (e : Byte) : Option Byte :=
  if e = quote then some quote
  else if e = backslash then some backslash
  else if e = byteOf '/' then some (byteOf '/')
  else if e = byteOf 'b' then some 8
  else if e = byteOf 'f' then some 12
  else if e = byteOf 'n' then some 10
  else if e = byteOf 'r' then some 13
  else if e = byteOf 't' then some 9
  else none

/-- The characters of a JSON string after its opening quote, up to the closing
quote: the value they stand for, as UTF-8, and the input after the closing
quote.  An escape `\uXXXX` stands for its code point (an escaped surrogate
half is not read); a control byte is not allowed. -/
def readChars : List Byte → Option (GoString × List Byte)
  | [] => none
  | c :: rest =>
    if c = quote then some ([], rest)
    else if c = backslash then
      match rest with
      | [] => none
      | e :: r2 =>
        if e = byteOf 'u' then
          match r2 with
          | h1 :: h2 :: h3 :: h4 :: r3 =>
            match hex4 h1 h2 h3 h4 with
            | some cp =>
              if isScalar cp then
                (readChars r3).map (fun vr => (utf8Bytes cp ++ vr.1, vr.2))
              else none
            | none => none
          | _ => none
        else
          match simpleEscape e with
          | some b => (readChars r2).map (fun vr => (b :: vr.1, vr.2))
          | none => none
    else if c.val < 0x20 then none
    else (readChars rest).map (fun vr => (c :: vr.1, vr.2))

/-- A JSON string at the start of the input: its value and the rest. -/
def readString : List Byte → Option (GoString × List Byte)
  | [] => none
  | q :: r => if q = quote then readChars r else none

/-- The members `"name":"value"` of a JSON object after its opening brace,
separated by commas and closed by a brace that ends the input. -/
def readMembers : Nat → List Byte → Option (List (GoString × GoString))
  | 0, _ => none
  | fuel + 1, s =>
    match readString s with
    | none => none
    | some (k, r1) =>
      match r1 with
      | [] => none
      | c :: r2 =>
        if c = byteOf ':' then
          match readString r2 with
          | none => none
          | some (v, r3) =>
            match r3 with
            | [] => none
            | d :: r4 =>
              if d = rbrace then (if r4 = [] then some [(k, v)] else none)
              else if d = byteOf ',' then (readMembers fuel r4).map (fun ms => (k, v) :: ms)
              else none
        else none

/-- A JSON object whose members are strings: the names and values in their
order of appearance. -/
def parseObject : List Byte → Option (List (GoString × GoString))
  | [] => none
  | c :: r =>
    if c = lbrace then (if r = [rbrace] then some [] else readMembers r.length r) else none

/-- The form field `jsonStr` of a report request body, read as a JSON object. -/
def parseReportBody (body : List Byte) : Option (List (GoString × GoString)) :=
  if (ascii "jsonStr=").isPrefixOf body then parseObject (body.drop (ascii "jsonStr=").length)
  else none

/-- A string with bytes that every release escapes in the same way: ten
control bytes, `<`, `>`, `&`, a double quote, a backslash, a line feed, a
carriage return, U+2028 and U+2029. -/
def escapeSample : GoString :=
  [0x04, 0x15, 0x17, 0x18, 0x19, 0x1A, 0x1B, 0x1D, 0x1E, 0x1F, byteOf '<', byteOf '>',
    byteOf '&', quote, backslash, 10, 13, 0xE2, 0x80, 0xA8, 0xE2, 0x80, 0xA9]

/-- A string with the bytes that the releases write differently: tab,
backspace, form feed and the invalid byte `FF`. -/
def releaseSample : GoString := [9, 8, 12, 0xFF]

/-! ## Sample stores -/

/-- A URL of the identity host. -/
def authURL : URL :=
  { Scheme := ascii "https", Host := ascii "auth.p4p.sogou.com", Path := ascii "/login" }

/-- Another URL of the identity host. -/
def captchaURL : URL :=
  { Scheme := ascii "https", Host := ascii "auth.p4p.sogou.com", Path := ascii "/validateCode/1" }

/-- A URL of the application host. -/
def landingURL : URL :=
  { Scheme := ascii "http", Host := ascii "xuri.p4p.sogou.com",
    Path := ascii "/cpcadindex/init.action" }

/-- A session cookie with the given value. -/
def sessionCookie (value : String) : Cookie :=
  { Name := ascii "JSESSIONID", Value := ascii value, Path := ascii "/", Domain := [] }

/-- A store in which the identity host already holds a cookie list. -/
def usedJar : MyJar := NewMyJar.SetCookies authURL (some [sessionCookie "old"])

/-! ## Sample pages -/

/-- A login page with both hidden fields filled in. -/
def samplePage : GoString :=
  ascii "<input name=\"lt\" value=\"LT-1\" /><input name=\"execution\" value=\"e1s1\" />"

/-- A page that has the `lt` field and no `execution` field. -/
def ltOnlyPage : GoString := ascii "<input name=\"lt\" value=\"LT-1\" />"

/-- The language of a pattern `A(.+?)B`, as a regular expression denotes it:
the body has a match when some place in it holds `A`, then one or more
characters other than `\n`, then `B`. -/
def Regexp.HasMatch (re : Regexp) (body : List Byte) : Prop :=
  ∃ a b, re.parts = some (a, b) ∧
    ∃ pre cap post, body = pre ++ a ++ cap ++ b ++ post ∧ cap ≠ [] ∧ newline ∉ cap

/-! ## Lemmas: pattern matching -/

theorem lazyTail_cons_single (q d : Byte) (r : List Byte) :
    lazyTail [q] (d :: r) =
      if d = q then some []
      else if d = newline then none
      else (lazyTail [q] r).map (fun cap => d :: cap) := by
  rw [lazyTail]
  by_cases h : d = q
  · simp [h, List.isPrefixOf]
  · have h2 : ¬ q = d := fun e => h e.symm
    simp [h, h2, List.isPrefixOf]

theorem lazyTail_some {q : Byte} {s cap : List Byte} (h : lazyTail [q] s = some cap) :
    ∃ post, s = cap ++ q :: post ∧ newline ∉ cap ∧ q ∉ cap := by
  induction s generalizing cap with
  | nil => simp [lazyTail] at h
  | cons d r ih =>
    rw [lazyTail_cons_single] at h
    by_cases hq : d = q
    · simp only [hq, if_true, Option.some.injEq] at h
      subst h
      exact ⟨r, by simp [hq], by simp, by simp⟩
    · by_cases hn : d = newline
      · rw [if_neg hq, if_pos hn] at h
        exact absurd h (by simp)
      · simp only [hq, hn, if_false, Option.map_eq_some'] at h
        obtain ⟨c, hc, rfl⟩ := h
        obtain ⟨post, hs, h1, h2⟩ := ih hc
        refine ⟨post, by simp [hs], ?_, ?_⟩
        · simp [h1, Ne.symm hn]
        · simp [h2, Ne.symm hq]

theorem lazyTail_isSome (q : Byte) (t post : List Byte) (hn : newline ∉ t) :
    (lazyTail [q] (t ++ q :: post)).isSome = true := by
  induction t with
  | nil => simp [lazyTail_cons_single]
  | cons d r ih =>
    simp only [List.mem_cons, not_or] at hn
    have h2 : d ≠ newline := fun h => hn.1 h.symm
    by_cases h1 : d = q
    · simp [lazyTail_cons_single, h1]
    · simpa [lazyTail_cons_single, h1, h2] using ih hn.2

theorem captureAt_some {q : Byte} {s cap : List Byte} (h : captureAt [q] s = some cap) :
    ∃ post, s = cap ++ q :: post ∧ cap ≠ [] ∧ newline ∉ cap := by
  cases s with
  | nil => simp [captureAt] at h
  | cons c r =>
    unfold captureAt at h
    by_cases hn : c = newline
    · simp [hn] at h
    · simp only [hn, if_false, Option.map_eq_some'] at h
      obtain ⟨t, ht, rfl⟩ := h
      obtain ⟨post, hs, h1, _⟩ := lazyTail_some ht
      exact ⟨post, by simp [hs], by simp, by simp [h1, Ne.symm hn]⟩

theorem captureAt_isSome (q : Byte) (cap post : List Byte) (hne : cap ≠ [])
    (hn : newline ∉ cap) : (captureAt [q] (cap ++ q :: post)).isSome = true := by
  cases cap with
  | nil => exact absurd rfl hne
  | cons c t =>
    simp only [List.mem_cons, not_or] at hn
    have h2 : c ≠ newline := fun h => hn.1 h.symm
    have := lazyTail_isSome q t post hn.2
    simp only [captureAt, List.cons_append, h2, if_false, Option.isSome_map']
    exact this

theorem matchAt_some {lit s cap : List Byte} {q : Byte} (h : matchAt lit [q] s = some cap) :
    ∃ post, s = lit ++ cap ++ q :: post ∧ cap ≠ [] ∧ newline ∉ cap := by
  unfold matchAt at h
  by_cases hp : lit.isPrefixOf s = true
  · simp only [hp, if_true] at h
    obtain ⟨rest, rfl⟩ := List.isPrefixOf_iff_prefix.mp hp
    simp only [List.drop_left] at h
    obtain ⟨post, hs, h1, h2⟩ := captureAt_some h
    exact ⟨post, by simp [hs], h1, h2⟩
  · simp [hp] at h

theorem matchAt_append (lit after rest : List Byte) :
    matchAt lit after (lit ++ rest) = captureAt after rest := by
  have hp : lit.isPrefixOf (lit ++ rest) = true :=
    List.isPrefixOf_iff_prefix.mpr (List.prefix_append lit rest)
  simp [matchAt, hp]

theorem findGroup_cons (lit after : List Byte) (c : Byte) (r : List Byte) :
    findGroup lit after (c :: r) =
      match matchAt lit after (c :: r) with
      | some cap => some cap
      | none => findGroup lit after r := by
  rw [findGroup]

theorem findGroup_of_matchAt {lit after s cap : List Byte}
    (h : matchAt lit after s = some cap) : findGroup lit after s = some cap := by
  cases s with
  | nil => simpa [findGroup] using h
  | cons c r => rw [findGroup_cons, h]

theorem findGroup_some {lit body cap : List Byte} {q : Byte}
    (h : findGroup lit [q] body = some cap) :
    ∃ pre post, body = pre ++ lit ++ cap ++ q :: post ∧ cap ≠ [] ∧ newline ∉ cap := by
  induction body with
  | nil =>
    simp only [findGroup] at h
    obtain ⟨post, hs, h1, h2⟩ := matchAt_some h
    simp at hs
  | cons c r ih =>
    rw [findGroup_cons] at h
    cases hm : matchAt lit [q] (c :: r) with
    | some cap2 =>
      rw [hm] at h
      simp only [Option.some.injEq] at h
      subst h
      obtain ⟨post, hs, h1, h2⟩ := matchAt_some hm
      exact ⟨[], post, by simpa using hs, h1, h2⟩
    | none =>
      rw [hm] at h
      obtain ⟨pre, post, hs, h1, h2⟩ := ih h
      exact ⟨c :: pre, post, by simp [hs], h1, h2⟩

theorem findGroup_isSome (lit : List Byte) (q : Byte) (pre cap post : List Byte)
    (hne : cap ≠ []) (hn : newline ∉ cap) :
    (findGroup lit [q] (pre ++ (lit ++ (cap ++ q :: post)))).isSome = true := by
  induction pre with
  | nil =>
    have hm : (matchAt lit [q] (lit ++ (cap ++ q :: post))).isSome = true := by
      rw [matchAt_append]; exact captureAt_isSome q cap post hne hn
    obtain ⟨v, hv⟩ := Option.isSome_iff_exists.mp hm
    have := findGroup_of_matchAt hv
    rw [List.nil_append, this]; rfl
  | cons c r ih =>
    rw [List.cons_append, findGroup_cons]
    cases hm : matchAt lit [q] (c :: (r ++ (lit ++ (cap ++ q :: post)))) with
    | some v => rfl
    | none => exact ih

theorem ltReg_parts : ltReg.parts = some (ltField, [quote]) := by decide

theorem executionReg_parts : executionReg.parts = some (executionField, [quote]) := by decide

theorem ltReg_FindSubmatch (body : List Byte) :
    ltReg.FindSubmatch body = findGroup ltField [quote] body := by
  simp [Regexp.FindSubmatch, ltReg_parts]

theorem executionReg_FindSubmatch (body : List Byte) :
    executionReg.FindSubmatch body = findGroup executionField [quote] body := by
  simp [Regexp.FindSubmatch, executionReg_parts]

theorem hasMatch_iff (re : Regexp) (lit : List Byte) (q : Byte)
    (hre : re.parts = some (lit, [q])) (body : List Byte) :
    re.HasMatch body ↔
      ∃ pre cap post, body = pre ++ lit ++ cap ++ [q] ++ post ∧ cap ≠ [] ∧ newline ∉ cap := by
  constructor
  · rintro ⟨a, b, hab, h⟩
    rw [hre] at hab
    simp only [Option.some.injEq, Prod.mk.injEq] at hab
    obtain ⟨rfl, rfl⟩ := hab
    exact h
  · intro h
    exact ⟨lit, [q], hre, h⟩

/-- The matcher finds a match exactly when the body has one. -/
theorem FindSubmatch_eq_none_iff (re : Regexp) (lit : List Byte) (q : Byte)
    (hre : re.parts = some (lit, [q])) (body : List Byte) :
    re.FindSubmatch body = none ↔ ¬ re.HasMatch body := by
  have hf : re.FindSubmatch body = findGroup lit [q] body := by
    simp [Regexp.FindSubmatch, hre]
  rw [hf]
  constructor
  · intro h hm
    obtain ⟨a, b, hab, pre, cap, post, hb, hne, hn⟩ := hm
    rw [hre] at hab
    simp only [Option.some.injEq, Prod.mk.injEq] at hab
    obtain ⟨rfl, rfl⟩ := hab
    have := findGroup_isSome lit q pre cap post hne hn
    have hb2 : body = pre ++ (lit ++ (cap ++ q :: post)) := by simp [hb]
    rw [← hb2, h] at this
    exact absurd this (by simp)
  · intro h
    cases hg : findGroup lit [q] body with
    | none => rfl
    | some cap =>
      obtain ⟨pre, post, hs, h1, h2⟩ := findGroup_some hg
      exact absurd ⟨lit, [q], hre, pre, cap, post, by simp [hs], h1, h2⟩ h

/-! ## Lemmas: form encoding -/

theorem upperhex_facts : ∀ n : Fin 16,
    unhex (upperhex n.val) = some n.val ∧ upperhex n.val ≠ byteOf '&' ∧
      upperhex n.val ≠ byteOf '=' := by
  decide

set_option maxRecDepth 100000 in
theorem shouldEscape_false_facts : ∀ c : Byte, shouldEscape c = false →
    c ≠ byteOf '%' ∧ c ≠ byteOf '+' ∧ c ≠ byteOf '&' ∧ c ≠ byteOf '=' := by
  decide

theorem byte_of_nibbles (c : Byte) :
    (⟨(c.val / 16 * 16 + c.val % 16) % 256, Nat.mod_lt _ (by decide)⟩ : Byte) = c := by
  apply Fin.ext
  have := c.isLt
  simp only
  omega

theorem escapeByte_no_sep (c : Byte) :
    byteOf '&' ∉ escapeByte c ∧ byteOf '=' ∉ escapeByte c := by
  unfold escapeByte
  by_cases h1 : c = byteOf ' '
  · rw [if_pos h1]; decide
  · rw [if_neg h1]
    by_cases h2 : shouldEscape c = true
    · rw [if_pos h2]
      have hlt1 : c.val / 16 < 16 := by have := c.isLt; omega
      have hlt2 : c.val % 16 < 16 := Nat.mod_lt _ (by decide)
      have f1 := upperhex_facts ⟨c.val / 16, hlt1⟩
      have f2 := upperhex_facts ⟨c.val % 16, hlt2⟩
      simp only at f1 f2
      have e1 : byteOf '&' ≠ byteOf '%' := by decide
      have e2 : byteOf '=' ≠ byteOf '%' := by decide
      simp [e1, e2, Ne.symm f1.2.1, Ne.symm f1.2.2, Ne.symm f2.2.1, Ne.symm f2.2.2]
    · rw [if_neg h2]
      have f := shouldEscape_false_facts c (by simpa using h2)
      simp [Ne.symm f.2.2.1, Ne.symm f.2.2.2]

theorem QueryEscape_no_sep (s : GoString) :
    byteOf '&' ∉ QueryEscape s ∧ byteOf '=' ∉ QueryEscape s := by
  unfold QueryEscape
  constructor
  · intro h
    obtain ⟨c, _, hc⟩ := List.mem_flatMap.mp h
    exact (escapeByte_no_sep c).1 hc
  · intro h
    obtain ⟨c, _, hc⟩ := List.mem_flatMap.mp h
    exact (escapeByte_no_sep c).2 hc

theorem QueryUnescape_escapeByte (c : Byte) (rest : GoString) :
    QueryUnescape (escapeByte c ++ rest) = (QueryUnescape rest).map (fun t => c :: t) := by
  unfold escapeByte
  by_cases h1 : c = byteOf ' '
  · rw [if_pos h1]
    have e : byteOf '+' ≠ byteOf '%' := by decide
    rw [List.singleton_append, QueryUnescape.eq_def]
    simp only [if_neg e, if_pos, h1]
  · rw [if_neg h1]
    by_cases h2 : shouldEscape c = true
    · rw [if_pos h2]
      have hlt1 : c.val / 16 < 16 := by have := c.isLt; omega
      have hlt2 : c.val % 16 < 16 := Nat.mod_lt _ (by decide)
      have f1 := upperhex_facts ⟨c.val / 16, hlt1⟩
      have f2 := upperhex_facts ⟨c.val % 16, hlt2⟩
      simp only at f1 f2
      rw [List.cons_append, List.cons_append, List.cons_append, List.nil_append,
        QueryUnescape.eq_def]
      simp only [if_true, f1.1, f2.1, byte_of_nibbles]
    · rw [if_neg h2]
      have f := shouldEscape_false_facts c (by simpa using h2)
      rw [List.singleton_append, QueryUnescape.eq_def]
      simp only [if_neg f.1, if_neg f.2.1]

/-- Percent-decoding undoes `QueryEscape` on every byte string. -/
theorem QueryUnescape_QueryEscape (s : GoString) : QueryUnescape (QueryEscape s) = some s := by
  induction s with
  | nil => simp [QueryEscape, QueryUnescape]
  | cons c r ih =>
    have : QueryEscape (c :: r) = escapeByte c ++ QueryEscape r := by simp [QueryEscape]
    rw [this, QueryUnescape_escapeByte, ih]
    rfl

theorem splitOn_append (sep : Byte) (a b : GoString) (h : sep ∉ a) :
    splitOn sep (a ++ sep :: b) = a :: splitOn sep b := by
  induction a with
  | nil => simp [splitOn]
  | cons c r ih =>
    simp only [List.mem_cons, not_or] at h
    have hc : c ≠ sep := fun e => h.1 e.symm
    simp [splitOn, hc, ih h.2]

theorem splitOn_single (sep : Byte) (a : GoString) (h : sep ∉ a) : splitOn sep a = [a] := by
  induction a with
  | nil => simp [splitOn]
  | cons c r ih =>
    simp only [List.mem_cons, not_or] at h
    have hc : c ≠ sep := fun e => h.1 e.symm
    simp [splitOn, hc, ih h.2]

theorem cutPair_append (k v : GoString) (h : byteOf '=' ∉ k) :
    cutPair (k ++ byteOf '=' :: v) = (k, v) := by
  induction k with
  | nil => simp [cutPair]
  | cons c r ih =>
    simp only [List.mem_cons, not_or] at h
    have hc : c ≠ byteOf '=' := fun e => h.1 e.symm
    simp [cutPair, hc, ih h.2]

theorem decodePieces_cons (k v : GoString) (ps : List GoString)
    (rest : List (GoString × GoString)) (_hk : k ≠ []) (hk2 : byteOf '=' ∉ k)
    (hk3 : QueryUnescape k = some k) (hps : decodePieces ps = some rest) :
    decodePieces ((k ++ byteOf '=' :: QueryEscape v) :: ps) = some ((k, v) :: rest) := by
  have hne : k ++ byteOf '=' :: QueryEscape v ≠ [] := by simp
  simp [decodePieces, hne, cutPair_append k _ hk2, hk3, QueryUnescape_QueryEscape, hps]

theorem LoginBody_eq (a b c d e : GoString) :
    LoginBody a b c d e =
      (ascii "_eventId" ++ byteOf '=' :: QueryEscape (ascii "submit")) ++ byteOf '&' ::
      ((ascii "execution" ++ byteOf '=' :: QueryEscape b) ++ byteOf '&' ::
      ((ascii "lt" ++ byteOf '=' :: QueryEscape a) ++ byteOf '&' ::
      ((ascii "password" ++ byteOf '=' :: QueryEscape d) ++ byteOf '&' ::
      ((ascii "username" ++ byteOf '=' :: QueryEscape c) ++ byteOf '&' ::
      (ascii "validateCode" ++ byteOf '=' :: QueryEscape e))))) := by
  unfold LoginBody Values.Encode
  simp only [List.map]
  rw [show sortStrings [ascii "lt", ascii "execution", ascii "_eventId", ascii "username",
        ascii "password", ascii "validateCode"]
      = [ascii "_eventId", ascii "execution", ascii "lt", ascii "password", ascii "username",
        ascii "validateCode"] by decide]
  have g1 : Values.get [ (ascii "lt", [a]), (ascii "execution", [b]), (ascii "_eventId", [ascii "submit"]),
      (ascii "username", [c]), (ascii "password", [d]), (ascii "validateCode", [e]) ] (ascii "_eventId") = [ascii "submit"] := rfl
  have g2 : Values.get [ (ascii "lt", [a]), (ascii "execution", [b]), (ascii "_eventId", [ascii "submit"]),
      (ascii "username", [c]), (ascii "password", [d]), (ascii "validateCode", [e]) ] (ascii "execution") = [b] := rfl
  have g3 : Values.get [ (ascii "lt", [a]), (ascii "execution", [b]), (ascii "_eventId", [ascii "submit"]),
      (ascii "username", [c]), (ascii "password", [d]), (ascii "validateCode", [e]) ] (ascii "lt") = [a] := rfl
  have g4 : Values.get [ (ascii "lt", [a]), (ascii "execution", [b]), (ascii "_eventId", [ascii "submit"]),
      (ascii "username", [c]), (ascii "password", [d]), (ascii "validateCode", [e]) ] (ascii "password") = [d] := rfl
  have g5 : Values.get [ (ascii "lt", [a]), (ascii "execution", [b]), (ascii "_eventId", [ascii "submit"]),
      (ascii "username", [c]), (ascii "password", [d]), (ascii "validateCode", [e]) ] (ascii "username") = [c] := rfl
  have g6 : Values.get [ (ascii "lt", [a]), (ascii "execution", [b]), (ascii "_eventId", [ascii "submit"]),
      (ascii "username", [c]), (ascii "password", [d]), (ascii "validateCode", [e]) ] (ascii "validateCode") = [e] := rfl
  simp only [List.foldl, g1, g2, g3, g4, g5, g6]
  have k1 : QueryEscape (ascii "_eventId") = ascii "_eventId" := by decide
  have k2 : QueryEscape (ascii "execution") = ascii "execution" := by decide
  have k3 : QueryEscape (ascii "lt") = ascii "lt" := by decide
  have k4 : QueryEscape (ascii "password") = ascii "password" := by decide
  have k5 : QueryEscape (ascii "username") = ascii "username" := by decide
  have k6 : QueryEscape (ascii "validateCode") = ascii "validateCode" := by decide
  rw [k1, k2, k3, k4, k5, k6]
  simp [ascii, byteOf]

/-! ## Lemmas: UTF-8 -/

theorem matchesRow_out (lo hi : Nat) (row : List (Nat × Nat)) (b : Byte) (t : List Byte)
    (h : b.val < lo ∨ hi < b.val) : matchesRow ((lo, hi) :: row) (b :: t) = false := by
  simp only [matchesRow, Bool.and_eq_false_imp, Bool.and_eq_true, decide_eq_true_eq,
    decide_eq_false_iff_not]
  intro h1
  omega

theorem matchesRow_in (lo hi : Nat) (row : List (Nat × Nat)) (b : Byte) (t : List Byte)
    (h : lo ≤ b.val ∧ b.val ≤ hi) :
    matchesRow ((lo, hi) :: row) (b :: t) = matchesRow row t := by
  simp [matchesRow, h.1, h.2]

theorem matchesRow_nil (s : List Byte) : matchesRow [] s = true := by
  cases s <;> rfl

theorem byte_classes (b : Byte) :
    b.val < 0x80 ∨ (0x80 ≤ b.val ∧ b.val < 0xC2) ∨ (0xC2 ≤ b.val ∧ b.val < 0xE0) ∨
      b.val = 0xE0 ∨ (0xE1 ≤ b.val ∧ b.val < 0xED) ∨ b.val = 0xED ∨
      (0xEE ≤ b.val ∧ b.val < 0xF0) ∨ b.val = 0xF0 ∨ (0xF1 ≤ b.val ∧ b.val < 0xF4) ∨
      b.val = 0xF4 ∨ 0xF5 ≤ b.val := by
  have := b.isLt
  omega

set_option maxHeartbeats 1000000 in
/-- The rune decoder of Go and Table 3-7 agree on every input. -/
theorem wellFormedPrefix_eq (b : Byte) (rest : List Byte) :
    wellFormedPrefix (b :: rest) =
      if b.val < 0x80 then some [b]
      else if multiByteWidth (b :: rest) = 0 then none
      else some ((b :: rest).take (multiByteWidth (b :: rest))) := by
  generalize hw : multiByteWidth (b :: rest) = w
  rcases rest with _ | ⟨b1, _ | ⟨b2, _ | ⟨b3, r⟩⟩⟩
  all_goals
    simp only [multiByteWidth, List.getD_cons_zero, List.getD_cons_succ, List.getD_nil,
      Fin.val_zero] at hw
    simp only [wellFormedPrefix, wellFormedRows]
    rcases byte_classes b with h | h | h | h | h | h | h | h | h | h | h
    all_goals
      simp (disch := omega) only [if_pos, if_neg] at hw
      simp (disch := omega) only [matchesRow_out, matchesRow_in, List.find?, if_pos, if_neg]
      first
      | (subst hw; simp [matchesRow]; done)
      | (split at hw <;> subst hw <;> first
          | (simp (disch := omega) only [matchesRow_in, matchesRow_nil]; simp; done)
          | (split <;> first
              | (simp; done)
              | (simp only [matchesRow, Bool.and_eq_true, decide_eq_true_eq, Bool.and_true] at *
                 omega)))

theorem matchesRow_high (row : List (Nat × Nat)) (hrow : ∀ e ∈ row, 0x80 ≤ e.1)
    (s : List Byte) (hm : matchesRow row s = true) :
    ∀ x ∈ s.take row.length, 0x80 ≤ x.val := by
  induction row generalizing s with
  | nil => simp
  | cons e row ih =>
    cases s with
    | nil => simp
    | cons b t =>
      obtain ⟨lo, hi⟩ := e
      simp only [matchesRow, Bool.and_eq_true, decide_eq_true_eq] at hm
      have hlo : 0x80 ≤ lo := hrow (lo, hi) (by simp)
      intro x hx
      simp only [List.length_cons, List.take_succ_cons, List.mem_cons] at hx
      rcases hx with rfl | hx
      · omega
      · exact ih (fun e he => hrow e (by simp [he])) t hm.2 x hx

theorem wellFormedRows_high :
    ∀ row ∈ wellFormedRows, row = [(0x00, 0x7F)] ∨ ∀ e ∈ row, 0x80 ≤ e.1 := by
  decide

theorem wellFormedPrefix_high (b : Byte) (rest enc : List Byte) (hb : 0x80 ≤ b.val)
    (h : wellFormedPrefix (b :: rest) = some enc) : ∀ x ∈ enc, 0x80 ≤ x.val := by
  simp only [wellFormedPrefix, Option.map_eq_some'] at h
  obtain ⟨row, hf, rfl⟩ := h
  have hp := List.find?_some hf
  have hmem := List.mem_of_find?_eq_some hf
  rcases wellFormedRows_high row hmem with rfl | hrow
  · simp only [matchesRow, Bool.and_eq_true, decide_eq_true_eq] at hp
    omega
  · exact matchesRow_high row hrow _ hp

theorem multiByteWidth_high (s : List Byte) (h0 : 0x80 ≤ (s.getD 0 0).val) :
    ∀ x ∈ s.take (multiByteWidth s), 0x80 ≤ x.val := by
  cases s with
  | nil => simp
  | cons b rest =>
    simp only [List.getD_cons_zero] at h0
    by_cases hw : multiByteWidth (b :: rest) = 0
    · rw [hw]; simp
    · have h := wellFormedPrefix_eq b rest
      rw [if_neg (by omega), if_neg hw] at h
      exact wellFormedPrefix_high b rest _ h0 h

theorem multiByteWidth_of_take (s : List Byte) (c : Byte)
    (h : s.take 3 = [0xE2, 0x80, c]) (hc : c = 0xA8 ∨ c = 0xA9) : multiByteWidth s = 3 := by
  rcases s with _ | ⟨b0, _ | ⟨b1, _ | ⟨b2, r⟩⟩⟩
  · simp at h
  · simp at h
  · simp at h
  · simp only [List.take_succ_cons, List.take_zero, List.cons.injEq, and_true] at h
    obtain ⟨rfl, rfl, rfl⟩ := h
    rcases hc with rfl | rfl <;> rfl

/-! ## Lemmas: reading JSON strings -/

theorem readChars_plain (c : Byte) (y : List Byte) (h1 : 0x20 ≤ c.val) (h2 : c ≠ quote)
    (h3 : c ≠ backslash) :
    readChars (c :: y) = (readChars y).map (fun vr => (c :: vr.1, vr.2)) := by
  rw [readChars.eq_def]
  have h4 : ¬ c.val < 0x20 := by omega
  simp only [if_neg h2, if_neg h3, if_neg h4]

theorem readChars_simple (e b : Byte) (y : List Byte) (he : e ≠ byteOf 'u')
    (h : simpleEscape e = some b) :
    readChars (backslash :: e :: y) = (readChars y).map (fun vr => (b :: vr.1, vr.2)) := by
  rw [readChars.eq_def]
  have hq : backslash ≠ quote := by decide
  simp only [if_neg hq, if_true, if_neg he, h]

theorem readChars_unicode (h1 h2 h3 h4 : Byte) (cp : Nat) (y : List Byte)
    (h : hex4 h1 h2 h3 h4 = some cp) (hs : isScalar cp = true) :
    readChars (backslash :: byteOf 'u' :: h1 :: h2 :: h3 :: h4 :: y) =
      (readChars y).map (fun vr => (utf8Bytes cp ++ vr.1, vr.2)) := by
  rw [readChars.eq_def]
  have hq : backslash ≠ quote := by decide
  simp only [if_neg hq, if_true, h, hs]

theorem readChars_high (l y : List Byte) (h : ∀ x ∈ l, 0x80 ≤ x.val) :
    readChars (l ++ y) = (readChars y).map (fun vr => (l ++ vr.1, vr.2)) := by
  induction l with
  | nil => simp
  | cons b r ih =>
    have hb : 0x80 ≤ b.val := h b (by simp)
    rw [List.cons_append, readChars_plain b _ (by omega), ih (fun x hx => h x (by simp [hx]))]
    · cases readChars y <;> simp
    · intro e; rw [e] at hb; revert hb; decide
    · intro e; rw [e] at hb; revert hb; decide

set_option maxRecDepth 100000 in
theorem hex4_low (n : Fin 16) (m : Fin 16) :
    hex4 (byteOf '0') (byteOf '0') (lowerhex n.val) (lowerhex m.val) =
      some (n.val * 16 + m.val) := by
  revert n m
  decide

theorem readChars_escapeASCII (rel : Release) (b : Byte) (y : List Byte) (hb : b.val < 0x80) :
    readChars (escapeASCII rel b ++ y) = (readChars y).map (fun vr => (b :: vr.1, vr.2)) := by
  unfold escapeASCII
  split_ifs with c1 c2 c3 c4 c5 c6 c7
  · exact readChars_plain b y c1.1 c1.2.2.1 c1.2.1
  · rcases c2 with h | h
    · subst h; exact readChars_simple _ _ y (by decide) (by decide)
    · subst h; exact readChars_simple _ _ y (by decide) (by decide)
  · have : b = 8 := Fin.ext c3.1
    subst this; exact readChars_simple _ _ y (by decide) (by decide)
  · have : b = 12 := Fin.ext c4.1
    subst this; exact readChars_simple _ _ y (by decide) (by decide)
  · subst c5; exact readChars_simple _ _ y (by decide) (by decide)
  · subst c6; exact readChars_simple _ _ y (by decide) (by decide)
  · rw [c7.1]; exact readChars_simple _ _ y (by decide) (by decide)
  · have hlt1 : b.val / 16 < 16 := by omega
    have hlt2 : b.val % 16 < 16 := Nat.mod_lt _ (by decide)
    have hx := hex4_low ⟨b.val / 16, hlt1⟩ ⟨b.val % 16, hlt2⟩
    simp only at hx
    have hcp : b.val / 16 * 16 + b.val % 16 = b.val := by omega
    rw [hcp] at hx
    have hs : isScalar b.val = true := by simp [isScalar]; omega
    have hu : utf8Bytes b.val = [b] := by
      simp only [utf8Bytes, if_pos hb, byteN]
      congr 1
      apply Fin.ext
      simp only
      omega
    have := readChars_unicode _ _ _ _ b.val y hx hs
    rw [hu] at this
    exact this

theorem readChars_replacement (rel : Release) (y : List Byte) :
    readChars (replacement rel ++ y) =
      (readChars y).map (fun vr => ([0xEF, 0xBF, 0xBD] ++ vr.1, vr.2)) := by
  unfold replacement
  split_ifs
  · exact readChars_high [0xEF, 0xBF, 0xBD] y (by
      intro x hx
      simp only [List.mem_cons, List.mem_singleton, List.not_mem_nil, or_false] at hx
      rcases hx with rfl | rfl | rfl <;> decide)
  · have := readChars_unicode (byteOf 'f') (byteOf 'f') (byteOf 'f') (byteOf 'd') 0xFFFD y
      (by decide) (by decide)
    exact this

theorem readChars_u2028 (y : List Byte) :
    readChars (ascii "\\u2028" ++ y) =
      (readChars y).map (fun vr => ([0xE2, 0x80, 0xA8] ++ vr.1, vr.2)) :=
  readChars_unicode (byteOf '2') (byteOf '0') (byteOf '2') (byteOf '8') 0x2028 y
    (by decide) (by decide)

theorem readChars_u2029 (y : List Byte) :
    readChars (ascii "\\u2029" ++ y) =
      (readChars y).map (fun vr => ([0xE2, 0x80, 0xA9] ++ vr.1, vr.2)) :=
  readChars_unicode (byteOf '2') (byteOf '0') (byteOf '2') (byteOf '9') 0x2029 y
    (by decide) (by decide)


theorem readChars_quote (rest : List Byte) : readChars (quote :: rest) = some ([], rest) := by
  rw [readChars.eq_def]
  simp

/-- Reading back what the string encoder wrote gives the text of the string. -/
theorem readChars_jsonLoop (rel : Release) (fuel : Nat) (s : GoString) (rest : List Byte) :
    readChars (jsonLoop rel fuel s ++ quote :: rest) = some (toValidUTF8Loop fuel s, rest) := by
  induction fuel generalizing s with
  | zero => simp [jsonLoop, toValidUTF8Loop, readChars_quote]
  | succ fuel ih =>
    cases s with
    | nil => simp [jsonLoop, toValidUTF8Loop, readChars_quote]
    | cons b t =>
      rw [jsonLoop, toValidUTF8Loop, wellFormedPrefix_eq]
      split_ifs with c1 c2 c3 c4
      · rw [List.append_assoc, readChars_escapeASCII rel b _ c1, ih]
        simp
      · rw [List.append_assoc, readChars_replacement, ih]
        simp
      · have hw := multiByteWidth_of_take (b :: t) 0xA8 c3 (Or.inl rfl)
        rw [List.append_assoc, readChars_u2028, ih, hw, c3]
        simp
      · have hw := multiByteWidth_of_take (b :: t) 0xA9 c4 (Or.inr rfl)
        rw [List.append_assoc, readChars_u2029, ih, hw, c4]
        simp
      · rw [List.append_assoc, readChars_high _ _ (multiByteWidth_high (b :: t) (by
          simp only [List.getD_cons_zero]; omega)), ih]
        simp only [Option.map_some', List.length_take]
        congr 3
        rcases Nat.le_total (multiByteWidth (b :: t)) (b :: t).length with h | h
        · rw [Nat.min_eq_left h]
        · rw [Nat.min_eq_right h, List.drop_of_length_le h, List.drop_of_length_le (Nat.le_refl _)]

theorem readString_jsonString (rel : Release) (s : GoString) (rest : List Byte) :
    readString (jsonString rel s ++ rest) = some (toValidUTF8 s, rest) := by
  unfold jsonString toValidUTF8
  simp only [List.cons_append, List.append_assoc, List.singleton_append, readString, if_true]
  exact readChars_jsonLoop rel s.length s rest

theorem encodeFields_false (rel : Release) (kv : GoString × GoString)
    (fs : List (GoString × GoString)) :
    encodeFields rel false (kv :: fs) = byteOf ',' :: encodeFields rel true (kv :: fs) := by
  obtain ⟨k, v⟩ := kv
  simp [encodeFields]

theorem readMembers_encodeFields (rel : Release) (fs : List (GoString × GoString))
    (hne : fs ≠ []) (fuel : Nat) (hf : fs.length ≤ fuel) :
    readMembers fuel (encodeFields rel true fs ++ [rbrace]) =
      some (fs.map (fun kv => (toValidUTF8 kv.1, toValidUTF8 kv.2))) := by
  induction fs generalizing fuel with
  | nil => exact absurd rfl hne
  | cons kv fs ih =>
    obtain ⟨k, v⟩ := kv
    cases fuel with
    | zero => simp at hf
    | succ fuel =>
      simp only [List.length_cons, Nat.add_le_add_iff_right] at hf
      have hc1 : byteOf ',' ≠ rbrace := by decide
      cases fs with
      | nil =>
        simp only [encodeFields, if_true, List.nil_append, List.append_assoc, List.append_nil,
          List.singleton_append, List.cons_append, readMembers, readString_jsonString, List.map]
      | cons kv2 more =>
        have ih2 := ih (by simp) fuel hf
        simp only [encodeFields_false] at *
        rw [encodeFields]
        simp only [if_true, List.nil_append, List.append_assoc, List.singleton_append,
          List.cons_append, readMembers, readString_jsonString]
        simp only [encodeFields_false, List.cons_append, if_neg hc1, if_true, ih2]
        simp

theorem encodeFields_length (rel : Release) (first : Bool) (fs : List (GoString × GoString)) :
    fs.length ≤ (encodeFields rel first fs).length := by
  induction fs generalizing first with
  | nil => simp [encodeFields]
  | cons kv fs ih =>
    obtain ⟨k, v⟩ := kv
    have := ih false
    simp only [encodeFields, List.length_append, List.length_cons, List.length_nil]
    omega

/-- The request body reads back as the object of the fields. -/
theorem parseReportBody_fields (rel : Release) (p : QueryReportParam) :
    parseReportBody (DownloadReportBody rel (some p)) =
      some (p.fields.map (fun kv => (toValidUTF8 kv.1, toValidUTF8 kv.2))) := by
  have hp : (ascii "jsonStr=").isPrefixOf (DownloadReportBody rel (some p)) = true :=
    List.isPrefixOf_iff_prefix.mpr (List.prefix_append _ _)
  have hne : p.fields ≠ [] := by simp [QueryReportParam.fields]
  have hstart : encodeFields rel true p.fields ++ [rbrace] ≠ [rbrace] := by
    intro h
    have h1 := congrArg List.length h
    simp only [List.length_append, List.length_singleton] at h1
    have hl := encodeFields_length rel true p.fields
    have h6 : p.fields.length = 6 := rfl
    omega
  unfold parseReportBody
  rw [if_pos hp]
  simp only [DownloadReportBody, List.drop_left, Marshal, parseObject, if_true, if_neg hstart]
  apply readMembers_encodeFields rel p.fields hne
  have hl := encodeFields_length rel true p.fields
  simp only [List.length_append, List.length_singleton]
  exact Nat.le_succ_of_le hl

/-! ## Lemmas: UTF-8 text -/

theorem matchesRow_out_byteN (lo hi : Nat) (row : List (Nat × Nat)) (n : Nat) (t : List Byte)
    (h : n % 256 < lo ∨ hi < n % 256) :
    matchesRow ((lo, hi) :: row) (byteN n :: t) = false :=
  matchesRow_out lo hi row (byteN n) t h

theorem matchesRow_in_byteN (lo hi : Nat) (row : List (Nat × Nat)) (n : Nat) (t : List Byte)
    (h : lo ≤ n % 256 ∧ n % 256 ≤ hi) :
    matchesRow ((lo, hi) :: row) (byteN n :: t) = matchesRow row t :=
  matchesRow_in lo hi row (byteN n) t h

theorem scalar_classes (cp : Nat) (h : isScalar cp = true) :
    cp < 0x80 ∨ (0x80 ≤ cp ∧ cp < 0x800) ∨ (0x800 ≤ cp ∧ cp < 0x1000) ∨
      (0x1000 ≤ cp ∧ cp < 0xD000) ∨ (0xD000 ≤ cp ∧ cp < 0xD800) ∨
      (0xE000 ≤ cp ∧ cp < 0x10000) ∨ (0x10000 ≤ cp ∧ cp < 0x40000) ∨
      (0x40000 ≤ cp ∧ cp < 0x100000) ∨ (0x100000 ≤ cp ∧ cp < 0x110000) := by
  simp only [isScalar, Bool.or_eq_true, Bool.and_eq_true, decide_eq_true_eq] at h
  omega

set_option maxHeartbeats 1000000 in
/-- Table 3-7 accepts the UTF-8 encoding of every scalar value. -/
theorem wellFormedPrefix_utf8Bytes (cp : Nat) (h : isScalar cp = true) (rest : List Byte) :
    wellFormedPrefix (utf8Bytes cp ++ rest) = some (utf8Bytes cp) := by
  simp only [wellFormedPrefix, wellFormedRows, utf8Bytes]
  rcases scalar_classes cp h with c | c | c | c | c | c | c | c | c
  all_goals
    simp (disch := omega) only [if_pos, if_neg, List.cons_append, List.nil_append]
    simp (disch := omega) only [matchesRow_out_byteN, matchesRow_in_byteN, matchesRow_nil,
      List.find?, Option.map_some', List.length_cons, List.length_nil, List.take_succ_cons,
      List.take_zero, Nat.reduceAdd]

theorem utf8Bytes_ne_nil (cp : Nat) : utf8Bytes cp ≠ [] := by
  unfold utf8Bytes
  split_ifs <;> simp

/-- The text of UTF-8 text is the text itself. -/
theorem toValidUTF8Loop_utf8Text (t : List Char) (fuel : Nat)
    (hf : (utf8Text t).length ≤ fuel) : toValidUTF8Loop fuel (utf8Text t) = utf8Text t := by
  induction t generalizing fuel with
  | nil => cases fuel <;> simp [utf8Text, toValidUTF8Loop]
  | cons c t ih =>
    have hc : isScalar c.toNat = true := by
      have := c.valid
      simp only [UInt32.isValidChar, Nat.isValidChar] at this
      simp only [isScalar, Bool.or_eq_true, Bool.and_eq_true, decide_eq_true_eq, Char.toNat]
      exact this
    have hu : utf8Text (c :: t) = utf8Bytes c.toNat ++ utf8Text t := by simp [utf8Text]
    rw [hu] at hf ⊢
    have hw := wellFormedPrefix_utf8Bytes c.toNat hc (utf8Text t)
    cases he : utf8Bytes c.toNat with
    | nil => exact absurd he (utf8Bytes_ne_nil _)
    | cons e es =>
      rw [he] at hw hf
      cases fuel with
      | zero => simp at hf
      | succ fuel =>
        rw [List.cons_append] at hw ⊢
        rw [toValidUTF8Loop, hw]
        simp only [List.length_cons, List.drop_succ_cons, List.cons_append]
        have hd : List.drop es.length (es ++ utf8Text t) = utf8Text t := List.drop_left _ _
        rw [hd, ih fuel]
        simp only [List.cons_append, List.length_cons, List.length_append] at hf
        omega

/-! ## Lemmas: JSON encoding -/

/-- More fuel than the length of the input changes nothing: the loop of
`jsonString` always runs to the end of the string. -/
theorem jsonLoop_fuel (rel : Release) (fuel1 fuel2 : Nat) (s : GoString)
    (h1 : s.length ≤ fuel1) (h2 : s.length ≤ fuel2) :
    jsonLoop rel fuel1 s = jsonLoop rel fuel2 s := by
  induction fuel1 generalizing fuel2 s with
  | zero =>
    have : s = [] := List.length_eq_zero.mp (by omega)
    subst this
    cases fuel2 <;> simp [jsonLoop]
  | succ f1 ih =>
    cases s with
    | nil => cases fuel2 <;> simp [jsonLoop]
    | cons b rest =>
      cases fuel2 with
      | zero => simp at h2
      | succ f2 =>
        simp only [List.length_cons, Nat.add_le_add_iff_right] at h1 h2
        rw [jsonLoop, jsonLoop]
        split_ifs with c1 c2 c3 c4
        · rw [ih f2 rest h1 h2]
        · rw [ih f2 rest h1 h2]
        · rw [ih f2 (rest.drop 2) (by simp; omega) (by simp; omega)]
        · rw [ih f2 (rest.drop 2) (by simp; omega) (by simp; omega)]
        · have hn : 1 ≤ multiByteWidth (b :: rest) := by omega
          rw [ih f2 _ (by simp; omega) (by simp; omega)]

theorem jsonLoop_plain (rel : Release) (fuel : Nat) (s : GoString)
    (h : s.all isPlainByte = true) (hf : s.length ≤ fuel) : jsonLoop rel fuel s = s := by
  induction fuel generalizing s with
  | zero =>
    have : s = [] := List.length_eq_zero.mp (by omega)
    subst this
    rfl
  | succ f ih =>
    cases s with
    | nil => rfl
    | cons b rest =>
      simp only [List.all_cons, Bool.and_eq_true] at h
      simp only [List.length_cons, Nat.add_le_add_iff_right] at hf
      have hb := h.1
      simp only [isPlainByte, Bool.and_eq_true, decide_eq_true_eq, bne_iff_ne, ne_eq] at hb
      obtain ⟨⟨⟨⟨⟨⟨p1, p2⟩, p3⟩, p4⟩, p5⟩, p6⟩, p7⟩ := hb
      rw [jsonLoop, if_pos p2, ih rest h.2 hf]
      have : escapeASCII rel b = [b] := by
        unfold escapeASCII
        rw [if_pos ⟨p1, p3, p4, p5, p6, p7⟩]
      rw [this]; rfl

theorem jsonString_plain (rel : Release) (s : GoString) (h : s.all isPlainByte = true) :
    jsonString rel s = quote :: (s ++ [quote]) := by
  unfold jsonString
  rw [jsonLoop_plain rel _ s h (Nat.le_refl _)]

theorem DownloadReportBody_shape (rel : Release) (p : QueryReportParam) :
    DownloadReportBody rel (some p) =
      ascii "jsonStr=" ++ (ascii "\x7b\"timeSelect\":" ++ jsonString rel p.TimeSelect ++
        ascii ",\"startDate\":" ++ jsonString rel p.StartDate ++
        ascii ",\"endDate\":" ++ jsonString rel p.EndDate ++
        ascii ",\"statType\":" ++ jsonString rel p.StatType ++
        ascii ",\"reportType\":" ++ jsonString rel p.ReportType ++
        ascii ",\"deviceType\":" ++ jsonString rel p.DeviceType ++ ascii "\x7d") := by
  have k1 : jsonString rel (ascii "timeSelect") = ascii "\"timeSelect\"" :=
    jsonString_plain rel _ (by decide)
  have k2 : jsonString rel (ascii "startDate") = ascii "\"startDate\"" :=
    jsonString_plain rel _ (by decide)
  have k3 : jsonString rel (ascii "endDate") = ascii "\"endDate\"" :=
    jsonString_plain rel _ (by decide)
  have k4 : jsonString rel (ascii "statType") = ascii "\"statType\"" :=
    jsonString_plain rel _ (by decide)
  have k5 : jsonString rel (ascii "reportType") = ascii "\"reportType\"" :=
    jsonString_plain rel _ (by decide)
  have k6 : jsonString rel (ascii "deviceType") = ascii "\"deviceType\"" :=
    jsonString_plain rel _ (by decide)
  simp only [DownloadReportBody, Marshal, QueryReportParam.fields, encodeFields, k1, k2, k3, k4,
    k5, k6]
  simp [ascii, byteOf, lbrace, rbrace]

theorem DownloadReportBody_sample (rel : Release) :
    DownloadReportBody rel (some sampleParam) =
      ascii ("jsonStr=\x7b\"timeSelect\":\"5\",\"startDate\":\"2016-02-15\"," ++
        "\"endDate\":\"2016-02-21\",\"statType\":\"0\",\"reportType\":\"3\"," ++
        "\"deviceType\":\"0\"\x7d") := by
  rw [DownloadReportBody_shape]
  simp only [sampleParam]
  rw [jsonString_plain rel (ascii "5") (by decide),
    jsonString_plain rel (ascii "2016-02-15") (by decide),
    jsonString_plain rel (ascii "2016-02-21") (by decide),
    jsonString_plain rel (ascii "0") (by decide),
    jsonString_plain rel (ascii "3") (by decide)]
  decide

theorem fieldNames_text :
    toValidUTF8 (ascii "timeSelect") = ascii "timeSelect" ∧
    toValidUTF8 (ascii "startDate") = ascii "startDate" ∧
    toValidUTF8 (ascii "endDate") = ascii "endDate" ∧
    toValidUTF8 (ascii "statType") = ascii "statType" ∧
    toValidUTF8 (ascii "reportType") = ascii "reportType" ∧
    toValidUTF8 (ascii "deviceType") = ascii "deviceType" := by
  decide

/-! ## Theorems: cookie store -/

/-- C1: after `SetCookies` on a URL with host `H` and list `C`, `Cookies` on any
URL with host `H` returns exactly `C`, whatever the store held before; a
second `SetCookies` for the host replaces the first list. -/
theorem setCookies_then_cookies (j : MyJar) (u u2 : URL) (C1 C : CookieSlice)
    (h : u2.Host = u.Host) :
    (j.SetCookies u C).Cookies u2 = C ∧
    ((j.SetCookies u C1).SetCookies u2 C).Cookies u = C := by
  simp [MyJar.SetCookies, MyJar.Cookies, h]

/-- Witness for C1: the identity host of `usedJar` holds an old list; after
`SetCookies` it holds the new list and nothing of the old one. -/
theorem setCookies_then_cookies_witness :
    captchaURL.Host = authURL.Host ∧
    usedJar.Cookies authURL = some [sessionCookie "old"] ∧
    (usedJar.SetCookies authURL (some [sessionCookie "new", sessionCookie "second"])).Cookies
        captchaURL = some [sessionCookie "new", sessionCookie "second"] ∧
    ((usedJar.SetCookies authURL (some [sessionCookie "old"])).SetCookies captchaURL
        (some [sessionCookie "new", sessionCookie "second"])).Cookies authURL =
      some [sessionCookie "new", sessionCookie "second"] :=
  ⟨by decide, by decide,
    setCookies_then_cookies usedJar authURL captchaURL (some [sessionCookie "old"])
      (some [sessionCookie "new", sessionCookie "second"]) (by decide)⟩

/-- C8: `SetCookies` for host `H` leaves `Cookies` of every other host as it was. -/
theorem setCookies_other_host (j : MyJar) (u u2 : URL) (C : CookieSlice)
    (h : u2.Host ≠ u.Host) :
    (j.SetCookies u C).Cookies u2 = j.Cookies u2 := by
  simp [MyJar.SetCookies, MyJar.Cookies, h]


/-- Witness for C8: setting cookies for the application host leaves the list
of the identity host in `usedJar` as it was. -/
theorem setCookies_other_host_witness :
    authURL.Host ≠ landingURL.Host ∧
    (usedJar.SetCookies landingURL (some [sessionCookie "app"])).Cookies authURL =
      usedJar.Cookies authURL ∧
    usedJar.Cookies authURL = some [sessionCookie "old"] :=
  ⟨by decide, setCookies_other_host usedJar landingURL authURL (some [sessionCookie "app"])
    (by decide), by decide⟩

/-! ## Theorems: login parameters -/

/-- C3: `FetchLoginParams` returns `ErrBodyNotMatched` exactly when the body was
read and the `lt` pattern or the `execution` pattern has no match in it; a
pattern has a match in a body when the body holds the field text, one or more
characters other than newline, and a double quote. -/
theorem errBodyNotMatched_iff (f : Fetched) (B : GoString) :
    ((FetchLoginParams f).2.2 = some GoError.ErrBodyNotMatched ↔
      ∃ body, f = Fetched.body body ∧
        (¬ ltReg.HasMatch body ∨ ¬ executionReg.HasMatch body)) ∧
    (ltReg.HasMatch B ↔
      ∃ pre cap post, B = pre ++ ltField ++ cap ++ [quote] ++ post ∧ cap ≠ [] ∧
        newline ∉ cap) ∧
    (executionReg.HasMatch B ↔
      ∃ pre cap post, B = pre ++ executionField ++ cap ++ [quote] ++ post ∧ cap ≠ [] ∧
        newline ∉ cap) := by
  refine ⟨?_, hasMatch_iff ltReg _ _ ltReg_parts B,
    hasMatch_iff executionReg _ _ executionReg_parts B⟩
  cases f with
  | requestError e => simp [FetchLoginParams]
  | doError e => simp [FetchLoginParams]
  | readError e => simp [FetchLoginParams]
  | body b =>
    simp only [FetchLoginParams, extractLoginParams, Fetched.body.injEq, exists_eq_left']
    rw [← FindSubmatch_eq_none_iff ltReg _ _ ltReg_parts,
      ← FindSubmatch_eq_none_iff executionReg _ _ executionReg_parts]
    cases h1 : ltReg.FindSubmatch b with
    | none => simp
    | some lt =>
      cases h2 : executionReg.FindSubmatch b with
      | none => simp
      | some ex => simp

/-- C9: when the extraction succeeds, both tokens are non-empty and free of
newlines, and the body contains `name="lt" value="` + lt + `"` and
`name="execution" value="` + execution + `"`. -/
theorem loginParams_success_shape (B lt execution : GoString)
    (h : FetchLoginParams (Fetched.body B) = (lt, execution, none)) :
    lt ≠ [] ∧ execution ≠ [] ∧ newline ∉ lt ∧ newline ∉ execution ∧
    (ltField ++ lt ++ [quote]) <:+: B ∧
    (executionField ++ execution ++ [quote]) <:+: B := by
  simp only [FetchLoginParams, extractLoginParams] at h
  cases h1 : ltReg.FindSubmatch B with
  | none => simp [h1] at h
  | some v =>
    cases h2 : executionReg.FindSubmatch B with
    | none => simp [h1, h2] at h
    | some w =>
      simp only [h1, h2, Prod.mk.injEq, and_true] at h
      obtain ⟨rfl, rfl⟩ := h
      rw [ltReg_FindSubmatch] at h1
      rw [executionReg_FindSubmatch] at h2
      obtain ⟨pre1, post1, hs1, a1, b1⟩ := findGroup_some h1
      obtain ⟨pre2, post2, hs2, a2, b2⟩ := findGroup_some h2
      refine ⟨a1, a2, b1, b2, ⟨pre1, post1, ?_⟩, ⟨pre2, post2, ?_⟩⟩
      · rw [hs1]; simp
      · rw [hs2]; simp

/-- Witness for C9: the tokens of `samplePage`. -/
theorem loginParams_success_shape_witness :
    ascii "LT-1" ≠ [] ∧ ascii "e1s1" ≠ [] ∧ newline ∉ ascii "LT-1" ∧ newline ∉ ascii "e1s1" ∧
    (ltField ++ ascii "LT-1" ++ [quote]) <:+: samplePage ∧
    (executionField ++ ascii "e1s1" ++ [quote]) <:+: samplePage :=
  loginParams_success_shape samplePage (ascii "LT-1") (ascii "e1s1") (by decide)

/-- C10: when `FetchLoginParams` returns `ErrBodyNotMatched`, the execution
token is empty, the lt token is empty exactly when the lt pattern has no
match, and a matched lt value is returned together with the error. -/
theorem errBodyNotMatched_tokens (B lt execution : GoString)
    (h : FetchLoginParams (Fetched.body B) = (lt, execution, some GoError.ErrBodyNotMatched)) :
    execution = [] ∧ (lt = [] ↔ ¬ ltReg.HasMatch B) ∧
    (∀ v, ltReg.FindSubmatch B = some v → lt = v ∧ ¬ executionReg.HasMatch B) := by
  rw [← FindSubmatch_eq_none_iff ltReg _ _ ltReg_parts,
    ← FindSubmatch_eq_none_iff executionReg _ _ executionReg_parts]
  simp only [FetchLoginParams, extractLoginParams] at h
  cases h1 : ltReg.FindSubmatch B with
  | none =>
    simp only [h1, Prod.mk.injEq, and_true] at h
    obtain ⟨rfl, rfl⟩ := h
    simp
  | some v =>
    have h1b := h1
    rw [ltReg_FindSubmatch] at h1b
    obtain ⟨_, _, _, hne, _⟩ := findGroup_some h1b
    cases h2 : executionReg.FindSubmatch B with
    | none =>
      simp only [h1, h2, Prod.mk.injEq, and_true] at h
      obtain ⟨rfl, rfl⟩ := h
      simp [hne]
    | some w => simp [h1, h2] at h

/-- Witness for C10: `ltOnlyPage` gives the lt value `LT-1` with the error. -/
theorem errBodyNotMatched_tokens_witness :
    ([] : GoString) = [] ∧ (ascii "LT-1" = [] ↔ ¬ ltReg.HasMatch ltOnlyPage) ∧
    (∀ v, ltReg.FindSubmatch ltOnlyPage = some v →
      ascii "LT-1" = v ∧ ¬ executionReg.HasMatch ltOnlyPage) :=
  errBodyNotMatched_tokens ltOnlyPage (ascii "LT-1") [] (by decide)

/-! ## Theorems: login form -/

/-- C6: the form body of `Login`, decoded as
`application/x-www-form-urlencoded`, has exactly the six fields `_eventId`,
`execution`, `lt`, `password`, `username`, `validateCode`, each once, with
`_eventId = submit` and the other five equal to the given strings, byte for
byte. -/
theorem loginBody_decodes (lt execution username password captcha : GoString) :
    parseForm (LoginBody lt execution username password captcha) =
      some [ (ascii "_eventId", ascii "submit"), (ascii "execution", execution),
             (ascii "lt", lt), (ascii "password", password),
             (ascii "username", username), (ascii "validateCode", captcha) ] := by
  have amp : ∀ (k v : GoString), byteOf '&' ∉ k → byteOf '&' ∉ k ++ byteOf '=' :: QueryEscape v := by
    intro k v hk
    have e : byteOf '&' ≠ byteOf '=' := by decide
    simp [hk, e, (QueryEscape_no_sep v).1]
  unfold parseForm
  rw [LoginBody_eq]
  rw [splitOn_append _ _ _ (amp _ _ (by decide)), splitOn_append _ _ _ (amp _ _ (by decide)),
    splitOn_append _ _ _ (amp _ _ (by decide)), splitOn_append _ _ _ (amp _ _ (by decide)),
    splitOn_append _ _ _ (amp _ _ (by decide)), splitOn_single _ _ (amp _ _ (by decide))]
  refine decodePieces_cons _ _ _ _ (by decide) (by decide) (by decide) ?_
  refine decodePieces_cons _ _ _ _ (by decide) (by decide) (by decide) ?_
  refine decodePieces_cons _ _ _ _ (by decide) (by decide) (by decide) ?_
  refine decodePieces_cons _ _ _ _ (by decide) (by decide) (by decide) ?_
  refine decodePieces_cons _ _ _ _ (by decide) (by decide) (by decide) ?_
  refine decodePieces_cons _ _ _ _ (by decide) (by decide) (by decide) ?_
  rfl

/-! ## Theorems: report request body -/

/-- C4: for every release of `encoding/json`, the request body of
`DownloadReport` is `jsonStr=` followed by the JSON object of the six fields in
the order timeSelect, startDate, endDate, statType, reportType, deviceType,
each value written as a JSON string: read back as JSON, the body gives exactly
these six names, each once and in this order, with the text of the field as
value (the field itself whenever it is UTF-8 text); the encoder reads every
string to its end, writes a value of plain printable characters unchanged
between the quotes and writes the escapes shown for the two samples; for the
parameters of the example the body is the exact text of the claim. -/
theorem downloadReport_body (rel : Release) (p : QueryReportParam) :
    DownloadReportBody rel (some p) =
      ascii "jsonStr=" ++ (ascii "\x7b\"timeSelect\":" ++ jsonString rel p.TimeSelect ++
        ascii ",\"startDate\":" ++ jsonString rel p.StartDate ++
        ascii ",\"endDate\":" ++ jsonString rel p.EndDate ++
        ascii ",\"statType\":" ++ jsonString rel p.StatType ++
        ascii ",\"reportType\":" ++ jsonString rel p.ReportType ++
        ascii ",\"deviceType\":" ++ jsonString rel p.DeviceType ++ ascii "\x7d") ∧
    parseReportBody (DownloadReportBody rel (some p)) =
      some [ (ascii "timeSelect", toValidUTF8 p.TimeSelect),
             (ascii "startDate", toValidUTF8 p.StartDate),
             (ascii "endDate", toValidUTF8 p.EndDate),
             (ascii "statType", toValidUTF8 p.StatType),
             (ascii "reportType", toValidUTF8 p.ReportType),
             (ascii "deviceType", toValidUTF8 p.DeviceType) ] ∧
    (∀ t : List Char, toValidUTF8 (utf8Text t) = utf8Text t) ∧
    (∀ (s : GoString) (n : Nat), jsonLoop rel (s.length + n) s = jsonLoop rel s.length s) ∧
    (∀ s : GoString, s.all isPlainByte = true → jsonString rel s = quote :: (s ++ [quote])) ∧
    jsonString rel escapeSample =
      ascii ("\"\\u0004\\u0015\\u0017\\u0018\\u0019\\u001a\\u001b\\u001d\\u001e\\u001f" ++
        "\\u003c\\u003e\\u0026\\\"\\\\\\n\\r\\u2028\\u2029\"") ∧
    jsonString rel releaseSample =
      quote :: ((if rel.tabShort = true then ascii "\\t" else ascii "\\u0009") ++
        (if rel.backspaceShort = true then ascii "\\b\\f" else ascii "\\u0008\\u000c") ++
        (if rel.replacementRaw = true then [0xEF, 0xBF, 0xBD] else ascii "\\ufffd") ++
        [quote]) ∧
    DownloadReportBody rel (some sampleParam) =
      ascii ("jsonStr=\x7b\"timeSelect\":\"5\",\"startDate\":\"2016-02-15\"," ++
        "\"endDate\":\"2016-02-21\",\"statType\":\"0\",\"reportType\":\"3\"," ++
        "\"deviceType\":\"0\"\x7d") ∧
    DownloadReportBody rel none = ascii "jsonStr=null" := by
  refine ⟨DownloadReportBody_shape rel p, ?_, ?_, ?_, jsonString_plain rel, ?_, ?_,
    DownloadReportBody_sample rel, rfl⟩
  · rw [parseReportBody_fields]
    obtain ⟨n1, n2, n3, n4, n5, n6⟩ := fieldNames_text
    simp only [QueryReportParam.fields, List.map, n1, n2, n3, n4, n5, n6]
  · intro t
    exact toValidUTF8Loop_utf8Text t _ (Nat.le_refl _)
  · intro s n
    exact jsonLoop_fuel rel _ _ s (Nat.le_add_right _ _) (Nat.le_refl _)
  · rcases rel with ⟨_ | _, _ | _, _ | _⟩ <;> decide
  · rcases rel with ⟨_ | _, _ | _, _ | _⟩ <;> decide

/-! ## Theorems: login check -/

/-- C5 (as stated, refuted): a server may answer the landing-page request with
the redirect status 302 and no `Location` header, with the status 304, or
with a 302 whose `Location` does not parse; the client follows none of them,
the redirect policy is not asked, and `CheckLogined` returns a nil error in
the first two cases and the client's parse error in the third. -/
theorem checkLogined_unfollowed_redirect :
    CheckLogined (fun l => Except.ok l) none
      (RoundTrip.answered { StatusCode := 302, Location := "" })
      (fun _ _ => Except.ok { StatusCode := 200, Location := "" }) = none ∧
    CheckLogined (fun l => Except.ok l) none
      (RoundTrip.answered { StatusCode := 304, Location := "https://auth.p4p.sogou.com/login" })
      (fun _ _ => Except.ok { StatusCode := 200, Location := "" }) = none ∧
    CheckLogined (fun _ => Except.error { msg := "invalid URL escape" }) none
      (RoundTrip.answered { StatusCode := 302, Location := "http://xuri.p4p.sogou.com/%zz" })
      (fun _ _ => Except.ok { StatusCode := 200, Location := "" }) =
      some (GoError.urlError "Get" "http://xuri.p4p.sogou.com/cpcadindex/init.action"
        (GoError.lib { msg := "invalid URL escape" })) ∧
    errorsIs (GoError.urlError "Get" "http://xuri.p4p.sogou.com/cpcadindex/init.action"
        (GoError.lib { msg := "invalid URL escape" })) GoError.ErrNotLogined = false := by
  decide

/-- C5 (amended): the redirect policy of `CheckLogined` answers every request
and every history with `ErrNotLogined`; on a redirect that the client follows
(status 301, 302, 303, 307 or 308 with a `Location` that is present and
parses), whatever the target, `CheckLogined` returns the not-logged-in error:
the error it returns is `ErrNotLogined` for `errors.Is`, being the client's
`*url.Error` around the policy's `ErrNotLogined`; and when the landing page is
served with status 200 it returns nil. -/
theorem checkLogined_followed_redirect
    (parseLocation : String → Except LibError String)
    (follow : Request → List Request → Except GoError Response)
    (status : Nat) (location target : String) (req : Request) (via : List Request)
    (hs : status = 301 ∨ status = 302 ∨ status = 303 ∨ status = 307 ∨ status = 308)
    (hl : location ≠ "") (hp : parseLocation location = Except.ok target) :
    checkLoginedRedirect req via = some GoError.ErrNotLogined ∧
    (∃ e, CheckLogined parseLocation none
        (RoundTrip.answered { StatusCode := status, Location := location }) follow = some e ∧
      e = GoError.urlError "Get" location GoError.ErrNotLogined ∧
      errorsIs e GoError.ErrNotLogined = true) ∧
    (∀ l, CheckLogined parseLocation none
        (RoundTrip.answered { StatusCode := 200, Location := l }) follow = none) := by
  have hr : shouldRedirect status = true := by
    rcases hs with h | h | h | h | h <;> subst h <;> rfl
  refine ⟨rfl, ⟨_, ?_, rfl, ?_⟩, ?_⟩
  · simp [CheckLogined, clientDo, hr, hl, hp, checkLoginedRedirect]
  · simp [errorsIs]
  · intro l
    simp [CheckLogined, clientDo, shouldRedirect]

/-- Witness for C5 (amended): a 302 to the login page of the identity host. -/
theorem checkLogined_followed_redirect_witness :
    checkLoginedRedirect { Method := "GET", URL := "https://auth.p4p.sogou.com/login" } [] =
      some GoError.ErrNotLogined ∧
    (∃ e, CheckLogined (fun l => Except.ok l) none
        (RoundTrip.answered
          { StatusCode := 302, Location := "https://auth.p4p.sogou.com/login" })
        (fun _ _ => Except.ok { StatusCode := 200, Location := "" }) = some e ∧
      e = GoError.urlError "Get" "https://auth.p4p.sogou.com/login" GoError.ErrNotLogined ∧
      errorsIs e GoError.ErrNotLogined = true) ∧
    (∀ l, CheckLogined (fun l => Except.ok l) none
        (RoundTrip.answered { StatusCode := 200, Location := l })
        (fun _ _ => Except.ok { StatusCode := 200, Location := "" }) = none) :=
  checkLogined_followed_redirect (fun l => Except.ok l)
    (fun _ _ => Except.ok { StatusCode := 200, Location := "" }) 302
    "https://auth.p4p.sogou.com/login" "https://auth.p4p.sogou.com/login"
    { Method := "GET", URL := "https://auth.p4p.sogou.com/login" } []
    (by decide) (by decide) rfl

end Sogouad
